import Mathlib

set_option maxRecDepth 8000

/-!
Verification of the lust compiler driver (src/src/compiler.rs) against its
natural-language specification.

The repository source provided contains the driver module `compiler.rs`.
The peer modules it calls (`crate::Expr` with `immediate_rep` /
`from_immediate` and the syntactic classifiers, `procedures`, `locals`,
`primitives`, `conditional`, `heap`) are not part of the provided source;
definitions for those are modelled from the specification and are marked
`Modelled from the spec:` in their doc comments.  Everything else is a
direct shallow embedding of `compiler.rs`.
-/

namespace Lust

/-- Expressions of the lust language (crate::Expr, as consumed by
compiler.rs): integers, characters (as Unicode code points), booleans, nil,
symbols, and lists of expressions. -/
inductive Expr : Type where
| integer (n : Int)
| char (c : Nat)
| bool (b : Bool)
| nil
| symbol (s : String)
| list (es : List Expr)

/-- Signed 64-bit wraparound: the arithmetic of the i64 machine word that
emitted constants live in. -/
def wrap64 (x : Int) : Int := (x + 2 ^ 63) % 2 ^ 64 - 2 ^ 63

/-- Modelled from the spec: `Expr::immediate_rep` (crate::Expr, not under
src/) encodes a literal into the fixed-width tagged machine word (spec
sections 3 and 4.1).  The concrete tag layout is an implementation choice per
the spec; this model uses: integers carry their payload shifted left by 2
with tag 0b00, characters carry their code point shifted left by 8 with low
byte 0x0F, and false, true, nil are the disjoint words 0x2F, 0x6F, 0x3F.
The empty list encodes exactly as nil, per the comment in compiler.rs line
92 ("A () == Expr::nil").  Non-immediate expressions have no meaningful
encoding and map to 0. -/
def immediate_rep : Expr → Int
| .integer n => wrap64 (n * 4)
| .char c => wrap64 ((c : Int) * 256 + 0x0F)
| .bool true => 0x6F
| .bool false => 0x2F
| .nil => 0x3F
| .list [] => 0x3F
| _ => 0

/-- Modelled from the spec: `Expr::from_immediate` (crate::Expr, not under
src/) decodes a tagged machine word back into a literal expression (spec
section 4.1), the inverse of `immediate_rep` on the representable
literals.  Words carrying none of the known tags decode to nil. -/
def from_immediate (w : Int) : Expr :=
if w % 4 = 0 then .integer (w / 4)
else if w % 256 = 0x0F then .char ((w / 256).toNat)
else if w = 0x6F then .bool true
else if w = 0x2F then .bool false
else .nil

/-- Modelled from the spec: the representable literals (spec section 4.1):
booleans, nil, Unicode scalar value characters, and integers within the
tagged word's signed payload range (the word is 64 bits wide and the integer
tag occupies 2 of them, so payloads span -(2 ^ 61) to 2 ^ 61 - 1). -/
def representable : Expr → Bool
| .integer n => -(2 ^ 61) ≤ n && n < 2 ^ 61
| .char c => c < 0xD800 || (0xE000 ≤ c && c < 0x110000)
| .bool _ => true
| .nil => true
| _ => false

/-- Modelled from the spec: the closed table of primitive operator names
(spec section 4.4).  The full table is an external language-design artifact
(spec section 9); this representative stand-in only fixes that primitive
calls are lists headed by a symbol drawn from a closed set of names. -/
def primitiveOps : List String :=
["add1", "sub1", "add", "sub", "mul", "eq", "lt", "gt", "cons", "car", "cdr"]

/-- Modelled from the spec: `Expr::is_primcall` (crate::Expr, not under
src/): a list headed by a symbol naming a primitive operator (spec sections
3 and 4.4). -/
def is_primcall : Expr → Bool
| .list (.symbol s :: _) => primitiveOps.contains s
| _ => false

/-- Modelled from the spec: `Expr::primcall_op` (crate::Expr, not under
src/): the operator symbol heading a primitive call. -/
def primcall_op : Expr → String
| .list (.symbol s :: _) => s
| _ => ""

/-- Modelled from the spec: `Expr::is_let` (crate::Expr, not under src/):
the binding form.  Per the call in compiler.rs line 85 it yields a bound
name and a bound expression. -/
def is_let : Expr → Option (String × Expr)
| .list [.symbol "let", .symbol s, e] => some (s, e)
| _ => none

/-- Modelled from the spec: `Expr::is_conditional` (crate::Expr, not under
src/): the three-armed conditional form (spec section 4.3).  Per the call in
compiler.rs line 87 it yields the condition and the two arms. -/
def is_conditional : Expr → Option (Expr × Expr × Expr)
| .list [.symbol "if", c, t, e] => some (c, t, e)
| _ => none

/-- Modelled from the spec: `Expr::is_fncall` (crate::Expr, not under src/):
a list headed by a symbol, read as a function call once the earlier
syntactic classes have been ruled out by emit_expr's dispatch order. -/
def is_fncall : Expr → Option (String × List Expr)
| .list (.symbol s :: args) => some (s, args)
| _ => none

mutual

/-- Renders an expression the way the Rust Debug formatter would, for the
diagnostic text built by emit_expr (compiler.rs line 95). -/
def exprDebug : Expr → String
| .integer n => "Integer(" ++ toString n ++ ")"
| .char c => "Char(" ++ toString c ++ ")"
| .bool b => "Bool(" ++ toString b ++ ")"
| .nil => "Nil"
| .symbol s => "Symbol(" ++ s ++ ")"
| .list es => "List([" ++ exprDebugItems es ++ "])"

/-- Comma-separated rendering of the elements of an expression list. -/
def exprDebugItems : List Expr → String
| [] => ""
| [e] => exprDebug e
| e :: es => exprDebug e ++ ", " ++ exprDebugItems es

end

/-- Renders a list of expressions the way the Rust Debug formatter renders
the vector `v` of a list expression in compiler.rs line 95. -/
def exprListDebug (es : List Expr) : String :=
"[" ++ exprDebugItems es ++ "]"

/-- The emitters that emit_expr dispatches to for non-literal expressions.
Their code (locals, primitives, conditional and procedures modules) is
outside the provided source, so the driver embedding is parametric in them:
each takes the syntactic pieces emit_expr hands it and yields the machine
word the emitted code computes, or a diagnostic. -/
structure Emitters where
  emitVarAccess : String → Except String Int
  emitPrimcall : String → List Expr → Except String Int
  emitLet : String → Expr → Except String Int
  emitConditional : Expr → Expr → Expr → Except String Int
  emitFncall : String → List Expr → Except String Int

/-- Embeds `emit_expr` (compiler.rs lines 75-99): the value computed by the
code emitted for one expression.  Literals become constants holding their
immediate representation; symbols go to variable access; lists dispatch in
source order on primitive call, binding form, conditional, function call,
then the empty list (a constant equal to nil), and any other list is the
illegal-application error carrying the offending form. -/
def emit_expr (em : Emitters) (expr : Expr) : Except String Int :=
match expr with
| .integer _ => .ok (immediate_rep expr)
| .char _ => .ok (immediate_rep expr)
| .bool _ => .ok (immediate_rep expr)
| .nil => .ok (immediate_rep expr)
| .symbol name => em.emitVarAccess name
| .list v =>
  if is_primcall expr then em.emitPrimcall (primcall_op expr) (v.drop 1)
  else match is_let expr with
  | some (s, e) => em.emitLet s e
  | none => match is_conditional expr with
    | some (c, t, e) => em.emitConditional c t e
    | none => match is_fncall expr with
      | some (name, args) => em.emitFncall name args
      | none =>
        if v.length = 0 then .ok (immediate_rep expr)
        else .error ("illegal function application " ++ exprListDebug v)

/-- A stand-in instantiation of the external emitters, used to evaluate the
embedded driver on concrete literal programs; the real lowering code lives
outside the provided source and never runs on the programs the theorems
below evaluate. -/
def defaultEmitters : Emitters where
  emitVarAccess := fun n => .error ("undefined variable " ++ n)
  emitPrimcall := fun _ _ => .error "primitive lowering is external"
  emitLet := fun _ _ => .error "let lowering is external"
  emitConditional := fun _ _ _ => .error "conditional lowering is external"
  emitFncall := fun _ _ => .error "function call lowering is external"

/-- A top-level function of the program (the procedures module's function
record, not under src/): its (unique) name, ordered parameter list, body and,
once annotated, its free-variable set (spec section 3, Function definition). -/
structure LustFn where
  name : String
  params : List String
  body : Expr
  free_variables : List String

/-- Modelled from the spec: the fresh, globally unique synthesized name given
to the k-th lifted anonymous function (spec section 4.5 pass 1). -/
def anonymousName (k : Nat) : String := "__anonymous_fn_" ++ toString k

/-- The parameter names of a function literal's parameter list. -/
def paramNames (ps : List Expr) : List String :=
ps.filterMap fun p => match p with | .symbol s => some s | _ => none

mutual

/-- Modelled from the spec: pass 1 of closure conversion at the expression
level (spec section 4.5): depth-first discovery of every anonymous function
literal (fn (params...) body), innermost first; each is removed into the
flat function list under a fresh synthesized name (numbered by the running
counter) and its original site becomes a symbol referencing that name.
Returns the rewritten expression, the functions collected inside it, and
the advanced counter. -/
def collectExpr : Expr → Nat → Expr × List LustFn × Nat
| .list [.symbol "fn", .list ps, body], k =>
    let r := collectExpr body k
    let name := anonymousName r.2.2
    (.symbol name, r.2.1 ++ [⟨name, paramNames ps, r.1, []⟩], r.2.2 + 1)
| .list es, k =>
    let r := collectList es k
    (.list r.1, r.2.1, r.2.2)
| e, k => (e, [], k)

/-- Pass 1 of closure conversion over a sequence of expressions, left to
right, threading the fresh-name counter. -/
def collectList : List Expr → Nat → List Expr × List LustFn × Nat
| [], k => ([], [], k)
| e :: es, k =>
    let r := collectExpr e k
    let rs := collectList es r.2.2
    (r.1 :: rs.1, r.2.1 ++ rs.2.1, rs.2.2)

end

/-- Modelled from the spec: `procedures::collect_functions` (not under
src/), pass 1 of closure conversion (spec section 4.5): collects every
anonymous function literal of the program into a flat, ordered list of
top-level definitions and replaces each original site with a name
reference.  Returns the collected functions and the rewritten program. -/
def collect_functions (program : List Expr) : List LustFn × List Expr :=
let r := collectList program 0
(r.2.1, r.1)

mutual

/-- Modelled from the spec: the free variables of an expression relative to
a set of bound names (spec sections 3 and 4.5 pass 2): a symbol outside the
bound set is free; the head symbol of a compound form is an operator or
function reference, not a variable; the binding form's bound name is a
binder occurrence, not a reference, and its scope (the sequel of a body) is
empty for the single-expression bodies of this model. -/
def freeVars (bound : List String) : Expr → List String
| .symbol s => if bound.contains s then [] else [s]
| .list [.symbol "let", .symbol _, e] => freeVars bound e
| .list (.symbol _ :: args) => freeVarsList bound args
| .list es => freeVarsList bound es
| _ => []

/-- Free variables of a sequence of expressions, left to right. -/
def freeVarsList (bound : List String) : List Expr → List String
| [] => []
| e :: es => freeVars bound e ++ freeVarsList bound es

end

/-- Modelled from the spec: `procedures::annotate_free_variables` (not under
src/), pass 2 of closure conversion (spec section 4.5): computes, for one
lifted function, the names its body references that are not among its own
parameters (deduplicated, in first-occurrence order). -/
def annotate_free_variables (f : LustFn) : LustFn :=
{ f with free_variables := (freeVars f.params f.body).dedup }

/-- Lookup in an association list, the model of a HashMap lookup; the maps
built below carry the unique function names of the spec's data model. -/
def assocLookup {α : Type} (m : List (String × α)) (s : String) : Option α :=
(m.find? fun pr => pr.1 == s).map fun pr => pr.2

mutual

/-- Modelled from the spec: pass 3 call-site rewiring at the expression
level (spec section 4.5): a call to a lifted function additionally receives
the values of that function's free variables from the calling scope,
modelled as extra trailing arguments (one of the two admissible capture
mechanisms of spec section 9). -/
def rewriteExpr (cap : List (String × List String)) : Expr → Expr
| .list (.symbol h :: args) =>
    match assocLookup cap h with
    | some fv => .list (.symbol h :: (rewriteList cap args ++ fv.map Expr.symbol))
    | none => .list (.symbol h :: rewriteList cap args)
| .list es => .list (rewriteList cap es)
| e => e

/-- Pass 3 rewiring over a sequence of expressions. -/
def rewriteList (cap : List (String × List String)) : List Expr → List Expr
| [] => []
| e :: es => rewriteExpr cap e :: rewriteList cap es

end

/-- Modelled from the spec: `procedures::replace_functions` (not under
src/), pass 3 of closure conversion (spec section 4.5): after all
collection and annotation, rewrite the program and every function body so
that call sites of lifted functions supply the captured free variables,
which become extra trailing parameters of the lifted functions. -/
def replace_functions (program : List Expr) (fns : List LustFn) : List Expr × List LustFn :=
let cap := fns.map fun f => (f.name, f.free_variables)
(program.map (rewriteExpr cap),
 fns.map fun f =>
   { f with params := f.params ++ f.free_variables, body := rewriteExpr cap f.body })

/-- Modelled from the spec: `procedures::build_arg_count_map` (not under
src/): the arity map, built once from the complete final list of top-level
functions, mapping each function name to its declared parameter count (spec
sections 3 and 4.5).  Arities are stored as 8-bit values in the compilation
context (compiler.rs line 39: HashMap<String, u8>), modelled as naturals
with an explicit reduction mod 256. -/
def build_arg_count_map (fns : List LustFn) : List (String × Nat) :=
fns.map fun f => (f.name, f.params.length % 256)

/-- Embeds `Context` (compiler.rs lines 31-40) restricted to the data the
claims concern: the lexical environment mapping names to variable slots, and
the arity map; the cranelift builder, module and word type are backend
handles outside the provided source. -/
structure Context where
  env : List (String × Nat)
  argmap : List (String × Nat)

/-- The invariant imposed by the u8 value type of Context.argmap
(compiler.rs line 39): every recorded arity fits in 8 bits. -/
def Context.argmapWF (c : Context) : Prop := ∀ pr ∈ c.argmap, pr.2 ≤ 255

/-- The whole closure-conversion transform roundtrip_program applies to the
program's top-level expressions, in the source's statement order
(compiler.rs lines 108-116): collect, annotate every collected function,
then replace. -/
def transform_program (program : List Expr) : List Expr :=
let collected := collect_functions program
(replace_functions collected.2 (collected.1.map annotate_free_variables)).1

/-- The final list of top-level functions of a program, as handed by
roundtrip_program to build_arg_count_map and to per-function emission
(compiler.rs lines 116-121). -/
def program_functions (program : List Expr) : List LustFn :=
let collected := collect_functions program
(replace_functions collected.2 (collected.1.map annotate_free_variables)).2

/-- The entry-function body emission of compiler.rs lines 143-146: emit each
top-level expression left to right, collecting the value each one computes
and stopping at the first emission failure, exactly as the source's
`map(..).collect::<Result<Vec<_>, _>>()`. -/
def emitAll (em : Emitters) : List Expr → Except String (List Int)
| [] => .ok []
| e :: es =>
  match emit_expr em e with
  | .error msg => .error msg
  | .ok w =>
    match emitAll em es with
    | .error msg => .error msg
    | .ok ws => .ok (w :: ws)

/-- Embeds the per-function emission loop of compiler.rs lines 119-121:
each top-level function is emitted in turn and the ? operator on
emit_procedure propagates the first failure, aborting the whole
compilation.  emit_procedure's own code is outside src/; it is modelled
from spec section 4.6 as compiling the function's body with emit_expr (its
declare-then-define discipline is modelled by pipeline_trace below, and the
emitted code itself is irrelevant to the driver's result). -/
def emitProcedures (em : Emitters) : List LustFn → Except String Unit
| [] => .ok ()
| f :: fs =>
  match emit_expr em f.body with
  | .error msg => .error msg
  | .ok _ => emitProcedures em fs

/-- Embeds `roundtrip_program` (compiler.rs lines 101-178): run closure
conversion (collect, annotate every function, replace), build the arity map
once, emit every function - emitProcedures, whose first failure aborts the
driver, as the ? on compiler.rs line 120 does - then emit the entry
function whose body evaluates the transformed top-level expressions left to
right - emitAll, which propagates the first emission failure - and return
the last value, decoded; with no values the driver fails with the source's
"expected at least one expression" diagnostic. -/
def roundtrip_program (em : Emitters) (program : List Expr) : Except String Expr :=
let program2 := transform_program program
let _argmap := build_arg_count_map (program_functions program)
match emitProcedures em (program_functions program) with
| .error e => .error e
| .ok _ =>
  match emitAll em program2 with
  | .error e => .error e
  | .ok vals =>
    match vals.getLast? with
    | some v => .ok (from_immediate v)
    | none => .error "expected at least one expression"

/-- Embeds `JIT` (compiler.rs lines 17-28) restricted to the state the
claims concern: how many times the allocation entry point has been
registered with the session; the builder contexts and the cranelift module
are backend state outside the provided source. -/
structure JIT where
  allocRegistrations : Nat

/-- Modelled from the spec: `heap::define_alloc` (not under src/) registers
the allocation entry point with the session's module; registration can fail
in the backend (spec section 7, InitFailure), modelled by the allocOk
flag. -/
def define_alloc (allocOk : Bool) (jit : JIT) : Except String JIT :=
if allocOk then .ok { jit with allocRegistrations := jit.allocRegistrations + 1 }
else .error "unable to register the allocation entry point"

/-- Embeds `JIT::default` (compiler.rs lines 42-54): construct the builder
context, codegen context and module - with the allocation entry point not
yet registered - then register the allocation entry point once; the source
unwraps the result, so a registration failure aborts construction and no
session value is produced. -/
def JIT.construct (allocOk : Bool) : Except String JIT :=
define_alloc allocOk { allocRegistrations := 0 }

/-- Observable phases of one whole-program compilation. -/
inductive PhaseEvent : Type where
| collected (name : String)
| annotated (name : String)
| replacedSites
| builtArgmap
| declared (name : String)
| defined (name : String)
deriving DecidableEq

/-- Position of each phase kind in the driver's fixed order. -/
def eventClass : PhaseEvent → Nat
| .collected _ => 0
| .annotated _ => 1
| .replacedSites => 2
| .builtArgmap => 3
| .declared _ => 4
| .defined _ => 5

/-- Modelled from the spec: the declare-then-define discipline of function
emission (spec sections 4.6 and 9): emit_procedure's code is outside src/;
per the spec, every function's name and signature is registered with the
backend in one pass before any function body is emitted, which is what lets
any body reference any other top-level function. -/
def emission_trace (fns : List LustFn) : List PhaseEvent :=
(fns.map fun f => PhaseEvent.declared f.name) ++ (fns.map fun f => PhaseEvent.defined f.name)

/-- The sequence of pipeline events of one run of roundtrip_program, in the
source's statement order (compiler.rs lines 108-121): collect every
anonymous function, annotate every collected function, rewire call sites,
build the arity map once, then declare and define the functions. -/
def pipeline_trace (program : List Expr) : List PhaseEvent :=
((collect_functions program).1.map fun f => PhaseEvent.collected f.name)
++ ((collect_functions program).1.map fun f => PhaseEvent.annotated f.name)
++ [PhaseEvent.replacedSites]
++ [PhaseEvent.builtArgmap]
++ emission_trace (program_functions program)

theorem wrap64_eq_of_bounds (x : Int) (h1 : -(2 ^ 63) ≤ x) (h2 : x < 2 ^ 63) :
    wrap64 x = x := by
  unfold wrap64
  omega

theorem roundtrip_program_eq (em : Emitters) (p : List Expr) :
    roundtrip_program em p =
      match emitProcedures em (program_functions p) with
      | .error e => .error e
      | .ok _ =>
        match emitAll em (transform_program p) with
        | .error e => .error e
        | .ok vals =>
          match vals.getLast? with
          | some v => .ok (from_immediate v)
          | none => .error "expected at least one expression" := rfl

theorem roundtrip_program_eq_ok (em : Emitters) (p : List Expr)
    (hfns : emitProcedures em (program_functions p) = .ok ()) :
    roundtrip_program em p =
      match emitAll em (transform_program p) with
      | .error e => .error e
      | .ok vals =>
        match vals.getLast? with
        | some v => .ok (from_immediate v)
        | none => .error "expected at least one expression" := by
  rw [roundtrip_program_eq, hfns]

theorem emitProcedures_ok (em : Emitters) :
    ∀ fns : List LustFn, (∀ f ∈ fns, (emit_expr em f.body).isOk = true) →
      emitProcedures em fns = .ok () := by
  intro fns
  induction fns with
  | nil => intro _; rfl
  | cons f fs ih =>
      intro h
      have hf := h f (List.mem_cons_self _ _)
      cases he : emit_expr em f.body with
      | error msg => rw [he] at hf; exact Bool.noConfusion hf
      | ok w =>
          simp only [emitProcedures, he]
          exact ih (fun g hg => h g (List.mem_cons_of_mem _ hg))

theorem roundtrip_single (em : Emitters) (v : Expr)
    (hplain : transform_program [v] = [v]) (hnofns : program_functions [v] = [])
    (w : Int) (hemit : emit_expr em v = .ok w) :
    roundtrip_program em [v] = .ok (from_immediate w) := by
  rw [roundtrip_program_eq_ok em [v] (by rw [hnofns]; rfl), hplain]
  simp only [emitAll, hemit]
  rfl

/-- C1: for every representable literal expression v (an integer within the
tagged word's signed payload range, a boolean, nil, or a representable
character), decoding via from_immediate is a left inverse of encoding via
immediate_rep, and compiling v as a single-expression program through
roundtrip_program and executing it returns an expression structurally equal
to v. -/
theorem roundtrip_law (em : Emitters) (v : Expr) (h : representable v = true) :
    from_immediate (immediate_rep v) = v ∧ roundtrip_program em [v] = .ok v := by
  have hdec : from_immediate (immediate_rep v) = v := by
    cases v with
    | integer n =>
        simp only [representable, Bool.and_eq_true, decide_eq_true_eq] at h
        have hw : wrap64 (n * 4) = n * 4 :=
          wrap64_eq_of_bounds _ (by omega) (by omega)
        have h1 : n * 4 % 4 = 0 := by omega
        have h2 : n * 4 / 4 = n := by omega
        simp only [immediate_rep, hw, from_immediate]
        rw [if_pos h1, h2]
    | char c =>
        simp only [representable, Bool.or_eq_true, Bool.and_eq_true,
          decide_eq_true_eq] at h
        have hw : wrap64 ((c : Int) * 256 + 0x0F) = (c : Int) * 256 + 0x0F :=
          wrap64_eq_of_bounds _ (by omega) (by omega)
        have h1 : ¬((c : Int) * 256 + 0x0F) % 4 = 0 := by omega
        have h2 : ((c : Int) * 256 + 0x0F) % 256 = 0x0F := by omega
        have h3 : (((c : Int) * 256 + 0x0F) / 256).toNat = c := by omega
        simp only [immediate_rep, hw, from_immediate]
        rw [if_neg h1, if_pos h2, h3]
    | bool b => cases b <;> rfl
    | nil => rfl
    | symbol s => simp [representable] at h
    | list es => simp [representable] at h
  have hemit : emit_expr em v = .ok (immediate_rep v) := by
    cases v with
    | integer n => rfl
    | char c => rfl
    | bool b => rfl
    | nil => rfl
    | symbol s => simp [representable] at h
    | list es => simp [representable] at h
  have hplain : transform_program [v] = [v] := by
    cases v with
    | integer n => rfl
    | char c => rfl
    | bool b => rfl
    | nil => rfl
    | symbol s => simp [representable] at h
    | list es => simp [representable] at h
  have hnofns : program_functions [v] = [] := by
    cases v with
    | integer n => rfl
    | char c => rfl
    | bool b => rfl
    | nil => rfl
    | symbol s => simp [representable] at h
    | list es => simp [representable] at h
  exact ⟨hdec, by rw [roundtrip_single em v hplain hnofns _ hemit, hdec]⟩

/-- C1 witness: the round-trip law evaluated at the character literal a. -/
theorem roundtrip_law_witness :
    representable (.char 97) = true ∧
    from_immediate (immediate_rep (.char 97)) = .char 97 ∧
    roundtrip_program defaultEmitters [.char 97] = .ok (.char 97) :=
  ⟨rfl, (roundtrip_law defaultEmitters (.char 97) rfl).1,
    (roundtrip_law defaultEmitters (.char 97) rfl).2⟩

/-- C5: whole-program compilation invoked with zero top-level expressions
fails with the empty-program diagnostic of compiler.rs lines 149-151 and
does not return a decoded value. -/
theorem empty_program_error (em : Emitters) :
    roundtrip_program em [] = .error "expected at least one expression" := rfl

/-- C6: a list expression whose head matches none of the syntactic classes
(primitive call, binding form, conditional, function call) and which is not
the empty list fails to compile with an illegal-application error whose
message carries the offending form; no value is produced. -/
theorem illegal_application_error (em : Emitters) (v : List Expr)
    (h1 : is_primcall (.list v) = false) (h2 : is_let (.list v) = none)
    (h3 : is_conditional (.list v) = none) (h4 : is_fncall (.list v) = none)
    (h5 : v ≠ []) :
    emit_expr em (.list v) =
      .error ("illegal function application " ++ exprListDebug v) := by
  simp [emit_expr, h1, h2, h3, h4, List.length_eq_zero, h5]

/-- C6 witness: the program form (() 1 2) compiles to the
illegal-application error carrying the printed form. -/
theorem illegal_application_error_witness :
    ([Expr.list [], Expr.integer 1, Expr.integer 2] ≠ ([] : List Expr)) ∧
    emit_expr defaultEmitters (.list [.list [], .integer 1, .integer 2]) =
      .error "illegal function application [List([]), Integer(1), Integer(2)]" :=
  ⟨by simp,
    illegal_application_error defaultEmitters [.list [], .integer 1, .integer 2]
      rfl rfl rfl rfl (by simp)⟩

/-- C8: if registration of the allocation entry point fails, session
construction aborts and no session value is produced; when construction
succeeds, the allocation entry point has been registered exactly once. -/
theorem session_init_allocation (b : Bool) :
    (b = false → JIT.construct b = .error "unable to register the allocation entry point") ∧
    (∀ j : JIT, JIT.construct b = .ok j → j.allocRegistrations = 1) := by
  constructor
  · intro hb
    subst hb
    rfl
  · intro j hj
    cases b with
    | false => simp [JIT.construct, define_alloc] at hj
    | true =>
        simp only [JIT.construct, define_alloc, if_true, Except.ok.injEq] at hj
        rw [← hj]

/-- C8 witness: session construction evaluated with registration failing
and with registration succeeding. -/
theorem session_init_allocation_witness :
    JIT.construct false = .error "unable to register the allocation entry point" ∧
    JIT.construct true = .ok ⟨1⟩ ∧ (JIT.mk 1).allocRegistrations = 1 :=
  ⟨(session_init_allocation false).1 rfl, rfl,
    (session_init_allocation true).2 ⟨1⟩ rfl⟩

/-- C9: the empty list expression emits exactly the machine word of the nil
literal, so the two are indistinguishable at the tagged-value level, and a
program whose last expression is the empty list decodes to nil. -/
theorem empty_list_encodes_nil (em : Emitters) :
    immediate_rep (.list []) = immediate_rep .nil ∧
    emit_expr em (.list []) = .ok (immediate_rep .nil) ∧
    roundtrip_program em [.list []] = .ok .nil :=
  ⟨rfl, rfl, rfl⟩

theorem emitAll_cons (em : Emitters) (e : Expr) (es : List Expr) :
    emitAll em (e :: es) =
      match emit_expr em e with
      | .error msg => .error msg
      | .ok w =>
        match emitAll em es with
        | .error msg => .error msg
        | .ok ws => .ok (w :: ws) := rfl

theorem emitAll_ok_getLast (em : Emitters) :
    ∀ (q : List Expr) (lastE : Expr), q.getLast? = some lastE →
      (∀ e ∈ q, (emit_expr em e).isOk = true) →
      ∀ w : Int, emit_expr em lastE = .ok w →
      ∃ vals, emitAll em q = .ok vals ∧ vals.getLast? = some w := by
  intro q
  induction q with
  | nil => intro lastE h; cases h
  | cons e rest ih =>
      intro lastE hlast hok w hw
      cases rest with
      | nil =>
          simp only [List.getLast?_singleton, Option.some.injEq] at hlast
          subst hlast
          exact ⟨[w], by simp [emitAll, hw], rfl⟩
      | cons e2 es =>
          rw [List.getLast?_cons_cons] at hlast
          obtain ⟨vals, h1, h2⟩ :=
            ih lastE hlast (fun x hx => hok x (List.mem_cons_of_mem _ hx)) w hw
          have he := hok e (List.mem_cons_self _ _)
          cases hee : emit_expr em e with
          | error msg => rw [hee] at he; exact Bool.noConfusion he
          | ok w0 =>
              refine ⟨w0 :: vals, ?_, ?_⟩
              · simp only [emitAll_cons, hee, h1]
              · cases vals with
                | nil => cases h2
                | cons v vs => rw [List.getLast?_cons_cons]; exact h2

/-- C2: when whole-program compilation succeeds - every lifted function
body and every (converted) top-level expression emits - the entry function
evaluates the top-level expressions left to right and the program's result
is the decoded value of the last one, whatever the values of the earlier
expressions; a failing function body aborts the driver before the entry
function, per the ? on compiler.rs line 120. -/
theorem sequencing_last_value (em : Emitters) (p q : List Expr) (lastE : Expr) (w : Int)
    (hq : transform_program p = q) (hlast : q.getLast? = some lastE)
    (hfns : ∀ f ∈ program_functions p, (emit_expr em f.body).isOk = true)
    (hok : ∀ e ∈ q, (emit_expr em e).isOk = true)
    (hw : emit_expr em lastE = .ok w) :
    roundtrip_program em p = .ok (from_immediate w) := by
  obtain ⟨vals, h1, h2⟩ := emitAll_ok_getLast em q lastE hlast hok w hw
  rw [roundtrip_program_eq_ok em p (emitProcedures_ok em _ hfns), hq, h1]
  simp [h2]

/-- C2 witness: the three-expression program (1 true 42) compiles and
executes to 42, the value of its last expression. -/
theorem sequencing_last_value_witness :
    roundtrip_program defaultEmitters [.integer 1, .bool true, .integer 42] =
      .ok (.integer 42) :=
  sequencing_last_value defaultEmitters
    [.integer 1, .bool true, .integer 42] [.integer 1, .bool true, .integer 42]
    (.integer 42) 168 rfl rfl (by decide) (by decide) rfl

/-- C10: every arity recorded in the compilation context's argument-count
map is an 8-bit value: no entry of a built arity map, and no value an arity
lookup can return, exceeds 255. -/
theorem argmap_u8_invariant (fns : List LustFn) :
    Context.argmapWF ⟨[], build_arg_count_map fns⟩ ∧
    (∀ s : String, ∀ a : Nat,
      assocLookup (build_arg_count_map fns) s = some a → a ≤ 255) := by
  constructor
  · intro pr hpr
    simp only [build_arg_count_map, List.mem_map] at hpr
    obtain ⟨f, _, rfl⟩ := hpr
    have := Nat.mod_lt f.params.length (y := 256) (by omega)
    omega
  · intro s a ha
    simp only [assocLookup, Option.map_eq_some'] at ha
    obtain ⟨pr, hfind, hval⟩ := ha
    have hmem := List.mem_of_find?_eq_some hfind
    simp only [build_arg_count_map, List.mem_map] at hmem
    obtain ⟨f, _, rfl⟩ := hmem
    have := Nat.mod_lt f.params.length (y := 256) (by omega)
    omega

/-- C10 witness: even a function declaring 300 parameters records an arity
within the 8-bit range. -/
theorem argmap_u8_invariant_witness :
    assocLookup (build_arg_count_map [⟨"big", List.replicate 300 "x", .nil, []⟩]) "big" =
      some 44 ∧ 44 ≤ 255 :=
  ⟨rfl, (argmap_u8_invariant [⟨"big", List.replicate 300 "x", .nil, []⟩]).2 "big" 44 rfl⟩

/-- The phase ordering relation on events. -/
def clsLe (a b : PhaseEvent) : Prop := eventClass a ≤ eventClass b

theorem pairwise_clsLe_map {α : Type} (l : List α) (g : α → PhaseEvent)
    (hconst : ∀ x y : α, eventClass (g x) ≤ eventClass (g y)) :
    List.Pairwise clsLe (l.map g) := by
  rw [List.pairwise_map]
  induction l with
  | nil => exact List.Pairwise.nil
  | cons a t ih => exact List.Pairwise.cons (fun b _ => hconst a b) ih

theorem pairwise_clsLe_append {l₁ l₂ : List PhaseEvent} (k : Nat)
    (h₁ : List.Pairwise clsLe l₁) (h₂ : List.Pairwise clsLe l₂)
    (hb₁ : ∀ e ∈ l₁, eventClass e ≤ k) (hb₂ : ∀ e ∈ l₂, k ≤ eventClass e) :
    List.Pairwise clsLe (l₁ ++ l₂) :=
  List.pairwise_append.mpr
    ⟨h₁, h₂, fun a ha b hb => le_trans (hb₁ a ha) (hb₂ b hb)⟩

theorem class_bound_map {α : Type} (l : List α) (g : α → PhaseEvent) (k : Nat)
    (h : ∀ x : α, eventClass (g x) ≤ k) : ∀ e ∈ l.map g, eventClass e ≤ k := by
  intro e he
  obtain ⟨x, _, rfl⟩ := List.mem_map.mp he
  exact h x

theorem class_bound_map_ge {α : Type} (l : List α) (g : α → PhaseEvent) (k : Nat)
    (h : ∀ x : α, k ≤ eventClass (g x)) : ∀ e ∈ l.map g, k ≤ eventClass e := by
  intro e he
  obtain ⟨x, _, rfl⟩ := List.mem_map.mp he
  exact h x

theorem pipeline_trace_pairwise (p : List Expr) :
    List.Pairwise clsLe (pipeline_trace p) := by
  unfold pipeline_trace emission_trace
  refine pairwise_clsLe_append 4 ?_ ?_ ?_ ?_
  · refine pairwise_clsLe_append 3 ?_ ?_ ?_ ?_
    · refine pairwise_clsLe_append 2 ?_ ?_ ?_ ?_
      · refine pairwise_clsLe_append 1 ?_ ?_ ?_ ?_
        · exact pairwise_clsLe_map _ _ (fun _ _ => Nat.le_refl 0)
        · exact pairwise_clsLe_map _ _ (fun _ _ => Nat.le_refl 1)
        · exact class_bound_map _ _ 1 (fun _ => by simp [eventClass])
        · exact class_bound_map_ge _ _ 1 (fun _ => by simp [eventClass])
      · exact List.pairwise_singleton _ _
      · rw [List.forall_mem_append]
        exact ⟨class_bound_map _ _ 2 (fun _ => by simp [eventClass]),
          class_bound_map _ _ 2 (fun _ => by simp [eventClass])⟩
      · intro e he
        rw [List.mem_singleton] at he
        subst he
        exact Nat.le_refl 2
    · exact List.pairwise_singleton _ _
    · rw [List.forall_mem_append]
      refine ⟨?_, ?_⟩
      · rw [List.forall_mem_append]
        exact ⟨class_bound_map _ _ 3 (fun _ => by simp [eventClass]),
          class_bound_map _ _ 3 (fun _ => by simp [eventClass])⟩
      · intro e he
        rw [List.mem_singleton] at he
        subst he
        simp [eventClass]
    · intro e he
      rw [List.mem_singleton] at he
      subst he
      exact Nat.le_refl 3
  · refine pairwise_clsLe_append 5 ?_ ?_ ?_ ?_
    · exact pairwise_clsLe_map _ _ (fun _ _ => Nat.le_refl 4)
    · exact pairwise_clsLe_map _ _ (fun _ _ => Nat.le_refl 5)
    · exact class_bound_map _ _ 5 (fun _ => by simp [eventClass])
    · exact class_bound_map_ge _ _ 5 (fun _ => Nat.le_refl 5)
  · rw [List.forall_mem_append]
    refine ⟨?_, ?_⟩
    · rw [List.forall_mem_append]
      refine ⟨?_, ?_⟩
      · rw [List.forall_mem_append]
        exact ⟨class_bound_map _ _ 4 (fun _ => by simp [eventClass]),
          class_bound_map _ _ 4 (fun _ => by simp [eventClass])⟩
      · intro e he
        rw [List.mem_singleton] at he
        subst he
        simp [eventClass]
    · intro e he
      rw [List.mem_singleton] at he
      subst he
      simp [eventClass]
  · rw [List.forall_mem_append]
    exact ⟨class_bound_map_ge _ _ 4 (fun _ => Nat.le_refl 4),
      class_bound_map_ge _ _ 4 (fun _ => by simp [eventClass])⟩

theorem trace_index_lt (p : List Expr) (i j : Nat) (u v : PhaseEvent)
    (hi : (pipeline_trace p)[i]? = some u) (hj : (pipeline_trace p)[j]? = some v)
    (hc : eventClass u < eventClass v) : i < j := by
  obtain ⟨hi', hui⟩ := List.getElem?_eq_some.mp hi
  obtain ⟨hj', hvj⟩ := List.getElem?_eq_some.mp hj
  by_contra hlt
  rcases Nat.lt_or_ge j i with hji | hij
  · have hp := List.pairwise_iff_getElem.mp (pipeline_trace_pairwise p) j i hj' hi' hji
    rw [hui, hvj] at hp
    exact absurd hp (by unfold clsLe; omega)
  · have : i = j := by omega
    subst this
    rw [hui] at hvj
    subst hvj
    exact absurd hc (by omega)

theorem collected_mem_trace (p : List Expr) (n : String)
    (hn : PhaseEvent.collected n ∈ pipeline_trace p) :
    ∃ f ∈ (collect_functions p).1, f.name = n := by
  unfold pipeline_trace emission_trace at hn
  rcases List.mem_append.mp hn with h | h
  · rcases List.mem_append.mp h with h | h
    · rcases List.mem_append.mp h with h | h
      · rcases List.mem_append.mp h with h | h
        · obtain ⟨f, hf, he⟩ := List.mem_map.mp h
          exact ⟨f, hf, PhaseEvent.collected.inj he⟩
        · obtain ⟨f, hf, he⟩ := List.mem_map.mp h
          exact PhaseEvent.noConfusion he
      · rw [List.mem_singleton] at h
        exact PhaseEvent.noConfusion h
    · rw [List.mem_singleton] at h
      exact PhaseEvent.noConfusion h
  · rcases List.mem_append.mp h with h | h
    · obtain ⟨f, hf, he⟩ := List.mem_map.mp h
      exact PhaseEvent.noConfusion he
    · obtain ⟨f, hf, he⟩ := List.mem_map.mp h
      exact PhaseEvent.noConfusion he

/-- C3: closure conversion's passes run in strict order: in the pipeline's
event sequence every collection event precedes every annotation event,
every collection and every annotation event precedes the call-site
replacement event (so no replacement happens before any annotation), and
every collected function gets an annotation event. -/
theorem conversion_pass_order (p : List Expr) :
    (∀ i j : Nat, ∀ n m : String,
        (pipeline_trace p)[i]? = some (.collected n) →
        (pipeline_trace p)[j]? = some (.annotated m) → i < j) ∧
    (∀ i j : Nat, ∀ n : String,
        (pipeline_trace p)[i]? = some (.collected n) →
        (pipeline_trace p)[j]? = some .replacedSites → i < j) ∧
    (∀ i j : Nat, ∀ n : String,
        (pipeline_trace p)[i]? = some (.annotated n) →
        (pipeline_trace p)[j]? = some .replacedSites → i < j) ∧
    (∀ n : String, PhaseEvent.collected n ∈ pipeline_trace p →
        PhaseEvent.annotated n ∈ pipeline_trace p) := by
  refine ⟨?_, ?_, ?_, ?_⟩
  · intro i j n m hi hj
    exact trace_index_lt p i j _ _ hi hj (by simp [eventClass])
  · intro i j n hi hj
    exact trace_index_lt p i j _ _ hi hj (by simp [eventClass])
  · intro i j n hi hj
    exact trace_index_lt p i j _ _ hi hj (by simp [eventClass])
  · intro n hn
    obtain ⟨f, hf, rfl⟩ := collected_mem_trace p n hn
    unfold pipeline_trace
    exact List.mem_append_left _ (List.mem_append_left _ (List.mem_append_left _
      (List.mem_append_right _ (List.mem_map_of_mem _ hf))))

/-- C3 witness: the pass ordering evaluated on a one-function program, at
the annotation and replacement events of its concrete trace. -/
theorem conversion_pass_order_witness :
    (pipeline_trace [.list [.symbol "fn", .list [.symbol "x"], .symbol "x"]])[1]? =
      some (.annotated "__anonymous_fn_0") ∧
    (pipeline_trace [.list [.symbol "fn", .list [.symbol "x"], .symbol "x"]])[2]? =
      some .replacedSites ∧ (1 : Nat) < 2 :=
  ⟨rfl, rfl,
    (conversion_pass_order [.list [.symbol "fn", .list [.symbol "x"], .symbol "x"]]).2.2.1
      1 2 "__anonymous_fn_0" rfl rfl⟩

/-- C4: every function declaration event precedes every body definition
event, and every final top-level function is declared in the pipeline, so a
body being emitted may reference any top-level function regardless of the
order bodies are emitted in. -/
theorem declare_before_define (p : List Expr) :
    (∀ i j : Nat, ∀ n m : String,
        (pipeline_trace p)[i]? = some (.declared n) →
        (pipeline_trace p)[j]? = some (.defined m) → i < j) ∧
    (∀ f ∈ program_functions p, PhaseEvent.declared f.name ∈ pipeline_trace p) := by
  constructor
  · intro i j n m hi hj
    exact trace_index_lt p i j _ _ hi hj (by simp [eventClass])
  · intro f hf
    unfold pipeline_trace emission_trace
    exact List.mem_append_right _ (List.mem_append_left _ (List.mem_map_of_mem _ hf))

/-- C4 witness: the declaration and definition events of a one-function
program, in their concrete trace positions. -/
theorem declare_before_define_witness :
    (pipeline_trace [.list [.symbol "fn", .list [.symbol "y"], .symbol "y"]])[4]? =
      some (.declared "__anonymous_fn_0") ∧
    (pipeline_trace [.list [.symbol "fn", .list [.symbol "y"], .symbol "y"]])[5]? =
      some (.defined "__anonymous_fn_0") ∧ (4 : Nat) < 5 :=
  ⟨rfl, rfl,
    (declare_before_define [.list [.symbol "fn", .list [.symbol "y"], .symbol "y"]]).1
      4 5 "__anonymous_fn_0" "__anonymous_fn_0" rfl rfl⟩

theorem count_map_zero_builtArgmap {α : Type} (l : List α) (g : α → PhaseEvent)
    (hg : ∀ x : α, g x ≠ PhaseEvent.builtArgmap) :
    (l.map g).count PhaseEvent.builtArgmap = 0 := by
  rw [List.count_eq_zero]
  intro hmem
  obtain ⟨x, _, hx⟩ := List.mem_map.mp hmem
  exact hg x hx

theorem pipeline_trace_count_builtArgmap (p : List Expr) :
    (pipeline_trace p).count PhaseEvent.builtArgmap = 1 := by
  unfold pipeline_trace emission_trace
  simp only [List.count_append]
  rw [count_map_zero_builtArgmap _ _ (fun x => by simp),
    count_map_zero_builtArgmap _ _ (fun x => by simp),
    count_map_zero_builtArgmap _ _ (fun x => by simp),
    count_map_zero_builtArgmap _ _ (fun x => by simp)]
  decide

theorem assocLookup_build (fns : List LustFn) (f : LustFn) (hf : f ∈ fns)
    (hnodup : (fns.map LustFn.name).Nodup) :
    assocLookup (build_arg_count_map fns) f.name = some (f.params.length % 256) := by
  induction fns with
  | nil => cases hf
  | cons g rest ih =>
      rw [List.map_cons, List.nodup_cons] at hnodup
      rcases List.mem_cons.mp hf with heq | hmem
      · subst heq
        simp only [assocLookup, build_arg_count_map, List.map_cons]
        rw [List.find?_cons_of_pos _ (by simp)]
        rfl
      · have hne : (g.name == f.name) = false := by
          rw [beq_eq_false_iff_ne]
          intro he
          exact hnodup.1 (he ▸ List.mem_map_of_mem LustFn.name hmem)
        have ihr := ih hmem hnodup.2
        simp only [assocLookup, build_arg_count_map, List.map_cons] at ihr ⊢
        rw [List.find?_cons_of_neg _ (by simp [hne])]
        exact ihr

/-- C7 counterexample: the recorded arity does not equal the declared
parameter count for every function of the set: under the 8-bit arity
storage of the compilation context (compiler.rs line 39), a function
declaring 300 parameters is recorded with arity 44, not 300. -/
theorem arity_map_overflow_counterexample :
    (⟨"big300", List.replicate 300 "p", .nil, []⟩ : LustFn).params.length = 300 ∧
    assocLookup (build_arg_count_map [⟨"big300", List.replicate 300 "p", .nil, []⟩])
      "big300" = some 44 ∧ (44 : Nat) ≠ 300 :=
  ⟨by simp, rfl, by omega⟩

/-- C7 as amended: the arity map is built exactly once per whole-program
compilation (exactly one build event in the pipeline trace) and only after
all lifting (every collection event precedes the build event), and it
records for every function of the complete final set, with its unique name,
the length of its declared parameter list whenever that length fits the
8-bit arity storage of the compilation context (at most 255 declared
parameters). -/
theorem arity_map_correct (p : List Expr) (fns : List LustFn) (f : LustFn)
    (hf : f ∈ fns) (hnodup : (fns.map LustFn.name).Nodup)
    (hfit : f.params.length ≤ 255) :
    ((pipeline_trace p).count PhaseEvent.builtArgmap = 1 ∧
      (∀ i j : Nat, ∀ n : String,
        (pipeline_trace p)[i]? = some (.collected n) →
        (pipeline_trace p)[j]? = some .builtArgmap → i < j)) ∧
    assocLookup (build_arg_count_map fns) f.name = some f.params.length := by
  refine ⟨⟨pipeline_trace_count_builtArgmap p, ?_⟩, ?_⟩
  · intro i j n hi hj
    exact trace_index_lt p i j _ _ hi hj (by simp [eventClass])
  · rw [assocLookup_build fns f hf hnodup,
      Nat.mod_eq_of_lt (by omega : f.params.length < 256)]

/-- C7 witness: the single build event of a concrete compilation, and the
arity lookup of a concrete two-function set. -/
theorem arity_map_correct_witness :
    (pipeline_trace [.integer 7]).count PhaseEvent.builtArgmap = 1 ∧
    assocLookup (build_arg_count_map
      [⟨"f0", ["a"], .nil, []⟩, ⟨"f1", ["a", "b"], .nil, []⟩]) "f1" = some 2 := by
  have h := arity_map_correct [.integer 7]
    [⟨"f0", ["a"], .nil, []⟩, ⟨"f1", ["a", "b"], .nil, []⟩] ⟨"f1", ["a", "b"], .nil, []⟩
    (List.mem_cons_of_mem _ (List.mem_cons_self _ _)) (by simp) (by simp)
  exact ⟨h.1.1, h.2⟩

end Lust
